import Mathlib

/-!
Verification of the OpenRCT2 stream / archive / WAV-reader core (PhysFS build).

The development shallowly embeds three source files:
  * src/openrct2/core/FileStream.hpp   (class FileStream, ENABLE_PHYSFS branch)
  * src/openrct2/core/Zip.cpp          (class ZipArchive)
  * src/openrct2/platform/PhysFs.cpp   (class FileAudioSource, AudioSource)

Machine integers are modelled as Nat or Int with explicit reductions modulo
powers of two at exactly the places where the C++ performs a narrowing or
wrapping conversion.  The PhysFS library itself is an external collaborator;
its primitives (openRead/openWrite, tell, seek, readBytes, writeBytes) are
modelled from the spec, section 6.
-/

set_option maxRecDepth 8000

namespace OpenRCT2

/-! ### Machine arithmetic helpers -/

/-- Unsigned 64-bit subtraction, as performed on `uint64_t` values in C++. -/
def sub64 (a b : Nat) : Nat := (2 ^ 64 + a - b) % 2 ^ 64

/-- Narrowing of a 64-bit tell value into a `PHYSFS_sint32`, as happens in the
declaration `PHYSFS_sint32 previousPos = PHYSFS_tell(_file)` in
`FileStream::Read`. -/
def wrap32 (n : Nat) : Int :=
  if n % 2 ^ 32 < 2 ^ 31 then ((n % 2 ^ 32 : Nat) : Int)
  else ((n % 2 ^ 32 : Nat) : Int) - 2 ^ 32

/-- Conversion of a signed value to the `PHYSFS_uint64` position argument of
`PHYSFS_seek` (sign extension followed by reinterpretation modulo `2^64`). -/
def seekTarget (i : Int) : Nat := (i % (2 ^ 64 : Int)).toNat

/-- Conversion of a `PHYSFS_sint64` result to `size_t`, as in the
declaration `size_t readBytes = PHYSFS_readBytes(...)` in
`FileStream::TryRead`: a -1 failure becomes `SIZE_MAX`. -/
def toSizeT (i : Int) : Nat := (i % (2 ^ 64 : Int)).toNat

/-! ### The virtual-filesystem collaborator

Modelled from the spec: section 6 describes the virtual-filesystem
collaborator as exposing `openRead/openWrite/openAppend`, `tell`, `seek`,
`readBytes` and `writeBytes` primitives over a sandboxed file.  A file is a
byte store with a logical size; `readBytes` returns the bytes between the
handle position and end of file, at most the requested count, and
`writeBytes` stores the buffer at the handle position, extending the file. -/

/-- A file inside the virtual filesystem: byte content and logical size. -/
structure PDisk where
  contents : Nat → Nat
  size : Nat

/-- Modelled from the spec: the collaborator `readBytes` primitive.  It yields
the bytes from `pos` up to at most `pos + n`, clamped at end of file. -/
def pfsReadBytes (d : PDisk) (pos n : Nat) : List Nat :=
  (List.range (min n (d.size - pos))).map (fun i => d.contents (pos + i))

/-- Modelled from the spec: the collaborator `writeBytes` primitive. -/
def pfsWrite (d : PDisk) (pos : Nat) (buf : List Nat) : PDisk :=
  { contents := fun i => if pos ≤ i ∧ i < pos + buf.length then buf.getD (i - pos) 0 else d.contents i
    size := max d.size (pos + buf.length) }

/-! ### FileStream (FileStream.hpp, ENABLE_PHYSFS branch) -/

/-- The `IOException` thrown by `FileStream::Read` and `FileStream::Write`. -/
inductive IOError
  | ioFailure
  deriving DecidableEq

/-- State of a `FileStream`: the underlying virtual-filesystem file, the
handle position, the capability flags set by the constructor, and the cached
logical size `_fileSize`. -/
structure FileStream where
  disk : PDisk
  pos : Nat
  canRead : Bool
  canWrite : Bool
  fileSize : Nat
  disposed : Bool

/-- The origins accepted by `FileStream::Seek`. -/
inductive SeekOrigin
  | seekBegin
  | seekCurrent
  | seekEnd

/-- `FileStream::Seek` (PhysFS branch): BEGIN seeks to `offset`, CURRENT to
`offset + PHYSFS_tell`, END to `PHYSFS_fileLength - offset`. -/
def FileStream.Seek (fs : FileStream) (offset : Int) (origin : SeekOrigin) : FileStream :=
  match origin with
  | .seekBegin => { fs with pos := seekTarget offset }
  | .seekCurrent => { fs with pos := seekTarget (offset + (fs.pos : Int)) }
  | .seekEnd => { fs with pos := seekTarget ((fs.disk.size : Int) - offset) }

/-- `FileStream::SetPosition`, which forwards to `Seek(position, BEGIN)`. -/
def FileStream.SetPosition (fs : FileStream) (position : Nat) : FileStream :=
  fs.Seek (position : Int) .seekBegin

/-- `FileStream::Read` (PhysFS branch).  When the stream is not readable
(a Write-mode stream), the read/write workaround closes the write handle,
reopens the file for reading, seeks to the saved `PHYSFS_sint32` position,
reads, then reopens for writing and seeks to the saved position again. -/
def FileStream.Read (fs : FileStream) (length : Nat) : Except IOError (List Nat) × FileStream :=
  let remainingBytes := sub64 fs.fileSize fs.pos
  if length ≤ remainingBytes then
    if fs.canRead = false then
      -- workaround for physfs only allowing a file to be in read or write mode at once
      let previousPos := wrap32 fs.pos
      let rpos := seekTarget previousPos
      let bytes := pfsReadBytes fs.disk rpos length
      let readSuccess := decide (0 < bytes.length)
      let previousPos2 := wrap32 (rpos + bytes.length)
      let fpos := seekTarget previousPos2
      if readSuccess then (Except.ok bytes, { fs with pos := fpos })
      else (Except.error IOError.ioFailure, { fs with pos := fpos })
    else
      let bytes := pfsReadBytes fs.disk fs.pos length
      if 0 < bytes.length then (Except.ok bytes, { fs with pos := fs.pos + bytes.length })
      else (Except.error IOError.ioFailure, fs)
  else (Except.error IOError.ioFailure, fs)

/-- `FileStream::Write` (PhysFS branch): write the buffer, then set
`_fileSize = max(_fileSize, GetPosition())`.  Modelled from the spec: the
collaborator `writeBytes` stores the whole buffer, so the surrounding
`IOException` branch for a rejected write is not taken. -/
def FileStream.Write (fs : FileStream) (buf : List Nat) : FileStream :=
  let disk := pfsWrite fs.disk fs.pos buf
  let pos := fs.pos + buf.length
  { fs with disk := disk, pos := pos, fileSize := max fs.fileSize pos }

/-- Modelled from the spec and the PhysFS contract: the result of
`PHYSFS_readBytes(_file, buffer, length)` as a signed count together with
the handle state after the call.  A handle opened for writing (the Write and
Append modes, where `_canRead` is false) cannot be read: the call reports
complete failure with -1 and moves nothing.  A read handle delivers up to
`length` bytes, clamped at end of file, advancing the position by the count
read. -/
def pfsReadBytesChecked (fs : FileStream) (length : Nat) : Int × FileStream :=
  if fs.canRead then
    (((pfsReadBytes fs.disk fs.pos length).length : Int),
      { fs with pos := fs.pos + (pfsReadBytes fs.disk fs.pos length).length })
  else (-1, fs)

/-- `FileStream::TryRead` (PhysFS branch): `size_t readBytes =
PHYSFS_readBytes(_file, buffer, length); return readBytes;` — the signed
backend result is converted to `size_t` (a -1 failure becomes `SIZE_MAX`)
and returned as the byte count. -/
def FileStream.TryRead (fs : FileStream) (length : Nat) : Nat × FileStream :=
  let readBytes := pfsReadBytesChecked fs length
  (toSizeT readBytes.1, readBytes.2)

/-- One caller-visible operation on a `FileStream`, used to reason about
arbitrary operation sequences. -/
inductive FsOp
  | writeOp (buf : List Nat)
  | readOp (length : Nat)
  | tryReadOp (length : Nat)
  | seekOp (offset : Int) (origin : SeekOrigin)
  | setPosOp (position : Nat)

/-- Run one operation, discarding the operation's result. -/
def FileStream.run (fs : FileStream) : FsOp → FileStream
  | .writeOp buf => fs.Write buf
  | .readOp length => (fs.Read length).2
  | .tryReadOp length => (fs.TryRead length).2
  | .seekOp offset origin => fs.Seek offset origin
  | .setPosOp position => fs.SetPosition position

/-- Run a sequence of operations. -/
def FileStream.runAll (fs : FileStream) : List FsOp → FileStream
  | [] => fs
  | op :: rest => (fs.run op).runAll rest

/-! ### Arithmetic and list lemmas -/

theorem seekTarget_ofNat (n : Nat) (h : n < 2 ^ 64) : seekTarget (n : Int) = n := by
  unfold seekTarget
  rw [Int.emod_eq_of_lt (by positivity) (by exact_mod_cast h)]
  simp

theorem wrap32_small (n : Nat) (h : n < 2 ^ 31) : wrap32 n = (n : Int) := by
  unfold wrap32
  rw [Nat.mod_eq_of_lt (by omega)]
  rw [if_pos (by omega)]

theorem sub64_eq (a b : Nat) (hb : b ≤ a) (ha : a < 2 ^ 64) : sub64 a b = a - b := by
  unfold sub64
  have h64 : (2 : Nat) ^ 64 = 18446744073709551616 := by norm_num
  omega

theorem range_map_getD (l : List Nat) :
    (List.range l.length).map (fun i => l.getD i 0) = l := by
  induction l with
  | nil => rfl
  | cons a t ih =>
    rw [List.length_cons, List.range_succ_eq_map, List.map_cons, List.map_map]
    simp only [Function.comp_def, List.getD_cons_zero, List.getD_cons_succ]
    rw [ih]

/-! ### Claims C4, C7, C9 on FileStream -/

/-- Claim C4: for every file stream, `Read(buffer, length)` with `length`
strictly greater than `Length() - Position()` fails with an I/O error and
fills no part of the buffer: the stream state is returned untouched and no
bytes are produced. -/
theorem C4_read_past_end (fs : FileStream) (length : Nat)
    (hpos : fs.pos ≤ fs.fileSize) (hsz : fs.fileSize < 2 ^ 64) (hlen : length < 2 ^ 64)
    (hover : fs.fileSize - fs.pos < length) :
    fs.Read length = (Except.error IOError.ioFailure, fs) := by
  unfold FileStream.Read
  rw [sub64_eq fs.fileSize fs.pos hpos hsz]
  rw [if_neg (by omega)]

theorem C4_read_past_end_witness :
    (let fs : FileStream :=
      { disk := { contents := fun _ => 0, size := 5 }
        pos := 3, canRead := true, canWrite := false, fileSize := 5, disposed := false }
     fs.Read 4 = (Except.error IOError.ioFailure, fs)) :=
  C4_read_past_end _ 4 (by decide) (by norm_num) (by norm_num) (by decide)

/-- The cached `_fileSize` is not modified by any single operation other than
`Write`, and `Write` can only increase it. -/
theorem run_fileSize_mono (fs : FileStream) (op : FsOp) :
    fs.fileSize ≤ (fs.run op).fileSize := by
  cases op with
  | writeOp buf => exact le_max_left _ _
  | readOp n =>
    show fs.fileSize ≤ (fs.Read n).2.fileSize
    unfold FileStream.Read
    dsimp only
    split
    · split
      · split <;> exact le_refl _
      · split <;> exact le_refl _
    · exact le_refl _
  | tryReadOp n =>
    show fs.fileSize ≤ (fs.TryRead n).2.fileSize
    unfold FileStream.TryRead pfsReadBytesChecked
    dsimp only
    split <;> exact le_refl _
  | seekOp offset origin => cases origin <;> exact le_refl _
  | setPosOp p => exact le_refl _

/-- Claim C7: every successful `Write` sets the cached length to
`max(previous length, resulting position)`, and the cached length never
shrinks across any sequence of stream operations. -/
theorem C7_length_monotone :
    (∀ (fs : FileStream) (buf : List Nat),
       (fs.Write buf).fileSize = max fs.fileSize (fs.Write buf).pos) ∧
    (∀ (fs : FileStream) (ops : List FsOp), fs.fileSize ≤ (fs.runAll ops).fileSize) := by
  refine ⟨fun fs buf => rfl, fun fs ops => ?_⟩
  induction ops generalizing fs with
  | nil => exact le_refl _
  | cons op rest ih =>
    exact le_trans (run_fileSize_mono fs op) (ih (fs.run op))

theorem toSizeT_ofNat (n : Nat) (h : n < 2 ^ 64) : toSizeT (n : Int) = n := by
  unfold toSizeT
  rw [Int.emod_eq_of_lt (by positivity) (by exact_mod_cast h)]
  simp

/-- Claim C9 (amended): on a readable (Open-mode) stream, `TryRead` never
throws and returns a byte count between 0 and `length` inclusive.  On a
Write/Append-mode PhysFS stream the handle is not open for reading, the
backend read fails with -1 and the `size_t` conversion makes `TryRead`
return `SIZE_MAX` instead; see the counterexample. -/
theorem C9_tryread_bounded (fs : FileStream) (length : Nat)
    (hread : fs.canRead = true) (hlen : length < 2 ^ 64) :
    (fs.TryRead length).1 ≤ length := by
  have hblen : (pfsReadBytes fs.disk fs.pos length).length ≤ length := by
    unfold pfsReadBytes
    simp only [List.length_map, List.length_range]
    exact min_le_left _ _
  unfold FileStream.TryRead pfsReadBytesChecked
  rw [if_pos hread]
  dsimp only
  rw [toSizeT_ofNat _ (by omega)]
  exact hblen

theorem C9_tryread_bounded_witness :
    (let fs : FileStream :=
      { disk := { contents := fun _ => 0, size := 5 }
        pos := 3, canRead := true, canWrite := false, fileSize := 5, disposed := false }
     (fs.TryRead 4).1 ≤ 4) :=
  C9_tryread_bounded
    { disk := { contents := fun _ => 0, size := 5 }
      pos := 3, canRead := true, canWrite := false, fileSize := 5, disposed := false }
    4 rfl (by norm_num)

/-- Claim C9 counterexample: on a Write-mode stream the handle is not open
for reading, `PHYSFS_readBytes` reports -1, and the `size_t` conversion
makes `TryRead` return `SIZE_MAX = 2^64 - 1`, which is not a byte count
between 0 and `length`. -/
theorem C9_tryread_cex :
    (let fs : FileStream :=
      { disk := { contents := fun _ => 0, size := 5 }
        pos := 0, canRead := false, canWrite := true, fileSize := 5, disposed := false }
     (fs.TryRead 3).1 = 2 ^ 64 - 1 ∧ ¬((fs.TryRead 3).1 ≤ 3)) := by
  refine ⟨by decide, by decide⟩

/-! ### Claim C1 -/

/-- Unfolding of the read/write reopen workaround for an in-bounds read on a
Write-mode stream whose positions fit in a signed 32-bit value. -/
theorem Read_write_mode (fs : FileStream) (n : Nat)
    (hmode : fs.canRead = false)
    (hrem : n ≤ sub64 fs.fileSize fs.pos)
    (hbytes : (pfsReadBytes fs.disk fs.pos n).length = n)
    (hn : 0 < n)
    (hfit2 : fs.pos + n < 2 ^ 31) :
    fs.Read n = (Except.ok (pfsReadBytes fs.disk fs.pos n), { fs with pos := fs.pos + n }) := by
  have hfit : fs.pos < 2 ^ 31 := by omega
  have h31 : (2 : Nat) ^ 31 < 2 ^ 64 := by norm_num
  simp only [FileStream.Read]
  rw [if_pos hrem, if_pos hmode]
  rw [wrap32_small fs.pos hfit, seekTarget_ofNat fs.pos (by omega)]
  rw [hbytes]
  rw [if_pos (decide_eq_true hn)]
  rw [wrap32_small (fs.pos + n) hfit2, seekTarget_ofNat (fs.pos + n) (by omega)]

/-- For positions that fit in a signed 32-bit value, the read/write reopen
workaround of a Write-mode virtual-filesystem stream is unobservable:
`Write(buf, n)` at offset `p` followed by `SetPosition(p); Read(out, n)`
yields `out == buf`, the position ends at `p + n`, and size bookkeeping and
file content are exactly those produced by the write. -/
theorem FileStream_reopen_preserves (fs : FileStream) (buf : List Nat)
    (hmode : fs.canRead = false) (hn : 0 < buf.length)
    (hfit : fs.pos + buf.length < 2 ^ 31) (hsz : fs.fileSize < 2 ^ 64) :
    (let r := ((fs.Write buf).SetPosition fs.pos).Read buf.length
     r.1 = Except.ok buf ∧ r.2.pos = fs.pos + buf.length ∧
     r.2.fileSize = (fs.Write buf).fileSize ∧ r.2.disk = (fs.Write buf).disk) := by
  have h31 : (2 : Nat) ^ 31 < 2 ^ 64 := by norm_num
  have hp64 : fs.pos < 2 ^ 64 := by omega
  have hfs2 : (fs.Write buf).SetPosition fs.pos =
      { disk := pfsWrite fs.disk fs.pos buf, pos := fs.pos, canRead := fs.canRead
        canWrite := fs.canWrite, fileSize := max fs.fileSize (fs.pos + buf.length)
        disposed := fs.disposed } := by
    unfold FileStream.Write FileStream.SetPosition FileStream.Seek
    rw [seekTarget_ofNat fs.pos hp64]
  have hsize : (pfsWrite fs.disk fs.pos buf).size = max fs.disk.size (fs.pos + buf.length) := rfl
  have hreadback : pfsReadBytes (pfsWrite fs.disk fs.pos buf) fs.pos buf.length = buf := by
    unfold pfsReadBytes
    rw [hsize]
    have hmin : min buf.length (max fs.disk.size (fs.pos + buf.length) - fs.pos) = buf.length := by
      omega
    rw [hmin]
    have hcongr : ∀ i ∈ List.range buf.length,
        (pfsWrite fs.disk fs.pos buf).contents (fs.pos + i) = buf.getD i 0 := by
      intro i hi
      rw [List.mem_range] at hi
      show (if fs.pos ≤ fs.pos + i ∧ fs.pos + i < fs.pos + buf.length
            then buf.getD (fs.pos + i - fs.pos) 0 else fs.disk.contents (fs.pos + i)) = _
      rw [if_pos ⟨by omega, by omega⟩]
      congr 1
      omega
    rw [List.map_congr_left hcongr]
    exact range_map_getD buf
  have hlen : (pfsReadBytes (pfsWrite fs.disk fs.pos buf) fs.pos buf.length).length
      = buf.length := by rw [hreadback]
  have hrem : buf.length ≤ sub64 (max fs.fileSize (fs.pos + buf.length)) fs.pos := by
    rw [sub64_eq _ _ (by omega) (by omega)]
    omega
  rw [hfs2]
  have happ := Read_write_mode
      { disk := pfsWrite fs.disk fs.pos buf, pos := fs.pos, canRead := fs.canRead
        canWrite := fs.canWrite, fileSize := max fs.fileSize (fs.pos + buf.length)
        disposed := fs.disposed } buf.length hmode hrem hlen hn hfit
  rw [happ]
  exact ⟨congrArg Except.ok hreadback, rfl, rfl, rfl⟩

/-- Claim C1: evaluation at the failing input.  On a Write-mode
virtual-filesystem stream over a file slightly larger than 2 GiB, writing two
bytes at offset `2^31 - 1` and reading them back does return the written
bytes, but the reopen workaround saves the resumption offset in a
`PHYSFS_sint32`, so the stream does not resume at `p + n`: position
bookkeeping is observably disturbed by the internal reopen. -/
theorem C1_truncation_eval :
    (let fs : FileStream :=
      { disk := { contents := fun _ => 0, size := 2 ^ 31 + 1 }
        pos := 2 ^ 31 - 1, canRead := false, canWrite := true
        fileSize := 2 ^ 31 + 1, disposed := false }
     let r := ((fs.Write [7, 7]).SetPosition (2 ^ 31 - 1)).Read 2
     r.1 = Except.ok [7, 7] ∧ r.2.pos ≠ 2 ^ 31 + 1) := by
  refine ⟨rfl, by decide⟩

/-! ### ZipArchive (Zip.cpp) -/

/-- One entry of the underlying libzip container: its stored name (a char
sequence, as `std::string`), the size reported by `zip_stat_index`, and the
payload bytes `zip_fread` can deliver.  A corrupt container is one where
fewer payload bytes than the declared size can be delivered. -/
structure ZEntry where
  name : List Char
  declared : Nat
  bytes : List Nat
  deriving DecidableEq

/-- State of a `ZipArchive`: the libzip entry table and the pool of write
buffers the archive retains for libzip (`_writeBuffers`). -/
structure ZipArchive where
  entries : List ZEntry
  writeBuffers : List (List Nat)
  deriving DecidableEq

/-- The platform `SIZE_MAX` (64-bit). -/
def SIZEMAX : Nat := 2 ^ 64 - 1

/-- `ZipArchive::NormalisePath`: on a non-empty path, convert every back
slash to a forward slash.  Paths are char sequences, matching the
character-by-character loop of the C++. -/
def NormalisePath (path : List Char) : List Char :=
  if path = [] then []
  else path.map (fun ch => if ch = '\\' then '/' else ch)

/-- The scan loop of `ZipArchive::GetIndexFromPath`: walk the entries in
index order and return the first whose normalised name equals the normalised
query. -/
def scanEntries (entries : List ZEntry) (normalisedPath : List Char) : Option Nat :=
  match entries with
  | [] => none
  | e :: rest =>
    if NormalisePath e.name = normalisedPath then some 0
    else (scanEntries rest normalisedPath).map (· + 1)

/-- `ZipArchive::GetIndexFromPath`: normalise the query, return `-1` (here
`none`) for an empty normalised path, otherwise the first matching index. -/
def ZipArchive.GetIndexFromPath (z : ZipArchive) (path : List Char) : Option Nat :=
  let normalisedPath := NormalisePath path
  if normalisedPath = [] then none
  else scanEntries z.entries normalisedPath

/-- `ZipArchive::GetFileSize`: `zip_stat_index` succeeds only for a valid
index; an invalid index (`-1`, here `none`) or out-of-range index reports 0. -/
def ZipArchive.GetFileSize (z : ZipArchive) (index : Option Nat) : Nat :=
  match index with
  | none => 0
  | some i =>
    match z.entries[i]? with
    | some e => e.declared
    | none => 0

/-- `ZipArchive::GetFileData`: resolve the path, check the declared size is
in `(0, SIZE_MAX)`, read exactly `dataSize` bytes with `zip_fread`, and clear
the result when the byte count actually read differs from the declared size. -/
def ZipArchive.GetFileData (z : ZipArchive) (path : List Char) : List Nat :=
  let index := z.GetIndexFromPath path
  let dataSize := z.GetFileSize index
  if 0 < dataSize ∧ dataSize < SIZEMAX then
    match index with
    | none => []
    | some i =>
      match z.entries[i]? with
      | none => []
      | some e =>
        let readBytes := min dataSize e.bytes.length
        if readBytes ≠ dataSize then [] else e.bytes.take dataSize
  else []

/-- Replace the payload of the entry at the given index, keeping its name
(the effect of `zip_replace`). -/
def replaceAt (entries : List ZEntry) (i : Nat) (data : List Nat) : List ZEntry :=
  match entries, i with
  | [], _ => []
  | e :: rest, 0 => { e with declared := data.length, bytes := data } :: rest
  | e :: rest, j + 1 => e :: replaceAt rest j data

/-- `ZipArchive::SetFileData`: push the buffer into the retained pool, then
either add a new entry at the end (`zip_add`, storing the path exactly as
given) or replace the data of the first matching entry (`zip_replace`). -/
def ZipArchive.SetFileData (z : ZipArchive) (path : List Char) (data : List Nat) : ZipArchive :=
  let z1 : ZipArchive := { z with writeBuffers := z.writeBuffers ++ [data] }
  match z.GetIndexFromPath path with
  | none => { z1 with entries := z1.entries ++ [{ name := path, declared := data.length, bytes := data }] }
  | some i => { z1 with entries := replaceAt z1.entries i data }

/-! ### Lemmas on the entry scan -/

theorem scanEntries_some (entries : List ZEntry) (np : List Char) (i : Nat)
    (h : scanEntries entries np = some i) :
    ∃ e, entries[i]? = some e ∧ NormalisePath e.name = np ∧
      ∀ j, j < i → ∀ e', entries[j]? = some e' → NormalisePath e'.name ≠ np := by
  induction entries generalizing i with
  | nil => simp [scanEntries] at h
  | cons e rest ih =>
    by_cases hm : NormalisePath e.name = np
    · simp only [scanEntries, if_pos hm, Option.some.injEq] at h
      subst h
      exact ⟨e, by simp, hm, fun j hj => by omega⟩
    · simp only [scanEntries, if_neg hm] at h
      cases hr : scanEntries rest np with
      | none => rw [hr] at h; exact absurd h (by simp)
      | some k =>
        rw [hr] at h
        simp only [Option.map_some', Option.some.injEq] at h
        obtain ⟨e', he', hm', hfirst⟩ := ih k hr
        subst h
        refine ⟨e', by rw [List.getElem?_cons_succ]; exact he', hm', ?_⟩
        intro j hj e'' he''
        match j with
        | 0 => simp only [List.getElem?_cons_zero, Option.some.injEq] at he''; subst he''; exact hm
        | j' + 1 =>
          rw [List.getElem?_cons_succ] at he''
          exact hfirst j' (by omega) e'' he''

theorem scanEntries_none (entries : List ZEntry) (np : List Char)
    (h : scanEntries entries np = none) :
    ∀ e ∈ entries, NormalisePath e.name ≠ np := by
  induction entries with
  | nil => intro e he; simp at he
  | cons e rest ih =>
    intro e' he'
    by_cases hm : NormalisePath e.name = np
    · simp [scanEntries, if_pos hm] at h
    · simp only [scanEntries, if_neg hm] at h
      rcases List.mem_cons.mp he' with rfl | hmem
      · exact hm
      · exact ih (Option.map_eq_none'.mp h) e' hmem

theorem scanEntries_append_none (l : List ZEntry) (e : ZEntry) (np : List Char)
    (h : scanEntries l np = none) :
    scanEntries (l ++ [e]) np =
      if NormalisePath e.name = np then some l.length else none := by
  induction l with
  | nil => simp [scanEntries]
  | cons a rest ih =>
    by_cases hm : NormalisePath a.name = np
    · simp [scanEntries, if_pos hm] at h
    · simp only [scanEntries, if_neg hm] at h
      have hrest := Option.map_eq_none'.mp h
      show scanEntries (a :: (rest ++ [e])) np = _
      simp only [scanEntries, if_neg hm, ih hrest]
      by_cases hme : NormalisePath e.name = np
      · rw [if_pos hme, if_pos hme, Option.map_some']
        simp
      · rw [if_neg hme, if_neg hme, Option.map_none']

theorem replaceAt_names (l : List ZEntry) (i : Nat) (d : List Nat) :
    (replaceAt l i d).map ZEntry.name = l.map ZEntry.name := by
  induction l generalizing i with
  | nil => rfl
  | cons a rest ih =>
    match i with
    | 0 => rfl
    | j + 1 => simp only [replaceAt, List.map_cons, ih j]

theorem scanEntries_names (l l' : List ZEntry) (np : List Char)
    (h : l.map ZEntry.name = l'.map ZEntry.name) :
    scanEntries l np = scanEntries l' np := by
  induction l generalizing l' with
  | nil => cases l' with
    | nil => rfl
    | cons b r => simp at h
  | cons a rest ih =>
    cases l' with
    | nil => simp at h
    | cons b r =>
      simp only [List.map_cons, List.cons.injEq] at h
      obtain ⟨hn, hr⟩ := h
      simp only [scanEntries, hn, ih r hr]

theorem replaceAt_getElem (l : List ZEntry) (i : Nat) (d : List Nat) (e : ZEntry)
    (h : l[i]? = some e) :
    (replaceAt l i d)[i]? = some { e with declared := d.length, bytes := d } := by
  induction l generalizing i with
  | nil => simp at h
  | cons a rest ih =>
    match i with
    | 0 =>
      simp only [List.getElem?_cons_zero, Option.some.injEq] at h
      subst h
      simp [replaceAt]
    | j + 1 =>
      rw [List.getElem?_cons_succ] at h
      simp only [replaceAt, List.getElem?_cons_succ]
      exact ih j h

/-! ### Claims C3 and C6 on ZipArchive -/

/-- Claim C3: `ReadEntry` is total and returns an empty result when the path
resolves to no entry or the declared size is zero or at least `SIZE_MAX`;
when it reads, it requests exactly the declared size and returns an empty
result (never a truncated buffer) when fewer bytes are available, and a
result of exactly the declared length otherwise. -/
theorem C3_readentry_empty_or_exact (z : ZipArchive) (path : List Char) :
    (z.GetIndexFromPath path = none → z.GetFileData path = []) ∧
    (∀ i e, z.GetIndexFromPath path = some i → z.entries[i]? = some e →
      ((e.declared = 0 ∨ SIZEMAX ≤ e.declared) → z.GetFileData path = []) ∧
      (0 < e.declared → e.declared < SIZEMAX → e.bytes.length < e.declared →
        z.GetFileData path = []) ∧
      (0 < e.declared → e.declared < SIZEMAX → e.declared ≤ e.bytes.length →
        z.GetFileData path = e.bytes.take e.declared ∧
          (z.GetFileData path).length = e.declared)) := by
  constructor
  · intro hnone
    simp only [ZipArchive.GetFileData, hnone, ZipArchive.GetFileSize]
    norm_num
  · intro i e hsome he
    simp only [ZipArchive.GetFileData, hsome, ZipArchive.GetFileSize, he]
    refine ⟨?_, ?_, ?_⟩
    · intro hbad
      rw [if_neg (by omega)]
    · intro h1 h2 hshort
      rw [if_pos ⟨h1, h2⟩, if_pos (by omega)]
    · intro h1 h2 hlong
      rw [if_pos ⟨h1, h2⟩, if_neg (by omega)]
      refine ⟨rfl, ?_⟩
      rw [List.length_take]
      omega

theorem C3_readentry_empty_or_exact_witness :
    (let z : ZipArchive :=
      { entries := [{ name := ['f'], declared := 3, bytes := [1] }], writeBuffers := [] }
     z.GetIndexFromPath ['f'] = some 0 ∧
      z.entries[0]? = some { name := ['f'], declared := 3, bytes := [1] } ∧
      (0 < 3 → 3 < SIZEMAX → 1 < 3 → z.GetFileData ['f'] = [])) := by
  exact ⟨by decide, by decide,
    ((C3_readentry_empty_or_exact
        { entries := [{ name := ['f'], declared := 3, bytes := [1] }], writeBuffers := [] }
        ['f']).2 0 { name := ['f'], declared := 3, bytes := [1] }
        (by decide) (by decide)).2.1⟩

theorem getElem?_append_length (l : List ZEntry) (e : ZEntry) :
    (l ++ [e])[l.length]? = some e := by
  induction l with
  | nil => rfl
  | cons a rest ih => simpa using ih

/-- Claim C6: backslash and forward-slash paths resolve to the same entry.
`SetEntry("a/b.txt", data)` followed by `ReadEntry("a\b.txt")` returns the
data unchanged, whether the set added a fresh entry or replaced an existing
one; and path lookup is a case-sensitive exact match on the
backslash-normalised names, returning the first matching index. -/
theorem C6_path_roundtrip (z : ZipArchive) (data : List Nat)
    (hsz : data.length < SIZEMAX) :
    (z.SetFileData ['a', '/', 'b', '.', 't', 'x', 't'] data).GetFileData
        ['a', '\\', 'b', '.', 't', 'x', 't'] = data ∧
    (∀ (q : List Char) (i : Nat), z.GetIndexFromPath q = some i →
      ∃ e, z.entries[i]? = some e ∧ NormalisePath e.name = NormalisePath q ∧
        ∀ j, j < i → ∀ e', z.entries[j]? = some e' →
          NormalisePath e'.name ≠ NormalisePath q) := by
  have hn1 : NormalisePath ['a', '/', 'b', '.', 't', 'x', 't']
      = ['a', '/', 'b', '.', 't', 'x', 't'] := by decide
  have hn2 : NormalisePath ['a', '\\', 'b', '.', 't', 'x', 't']
      = ['a', '/', 'b', '.', 't', 'x', 't'] := by decide
  have hne : (['a', '/', 'b', '.', 't', 'x', 't'] : List Char) ≠ [] := by decide
  constructor
  · cases hidx : z.GetIndexFromPath ['a', '/', 'b', '.', 't', 'x', 't'] with
    | none =>
      have hscan : scanEntries z.entries ['a', '/', 'b', '.', 't', 'x', 't'] = none := by
        simp only [ZipArchive.GetIndexFromPath, hn1, if_neg hne] at hidx
        exact hidx
      have hentries : (z.SetFileData ['a', '/', 'b', '.', 't', 'x', 't'] data).entries
          = z.entries ++
            [{ name := ['a', '/', 'b', '.', 't', 'x', 't'], declared := data.length,
               bytes := data }] := by
        simp only [ZipArchive.SetFileData, hidx]
      have hindex : (z.SetFileData ['a', '/', 'b', '.', 't', 'x', 't'] data).GetIndexFromPath
          ['a', '\\', 'b', '.', 't', 'x', 't'] = some z.entries.length := by
        simp only [ZipArchive.GetIndexFromPath, hn2, if_neg hne, hentries]
        rw [scanEntries_append_none _ _ _ hscan, if_pos hn1]
      have hget : (z.SetFileData ['a', '/', 'b', '.', 't', 'x', 't'] data).entries[z.entries.length]?
          = some { name := ['a', '/', 'b', '.', 't', 'x', 't'], declared := data.length,
                   bytes := data } := by
        rw [hentries]
        exact getElem?_append_length _ _
      simp only [ZipArchive.GetFileData, hindex, ZipArchive.GetFileSize, hget]
      by_cases hzero : data.length = 0
      · rw [if_neg (by omega)]
        exact (List.length_eq_zero.mp hzero).symm
      · rw [if_pos ⟨by omega, hsz⟩, if_neg (by simp)]
        exact List.take_length data
    | some i =>
      have hscan : scanEntries z.entries ['a', '/', 'b', '.', 't', 'x', 't'] = some i := by
        simp only [ZipArchive.GetIndexFromPath, hn1, if_neg hne] at hidx
        exact hidx
      obtain ⟨e, he, hm, hfirst⟩ := scanEntries_some _ _ _ hscan
      have hentries : (z.SetFileData ['a', '/', 'b', '.', 't', 'x', 't'] data).entries
          = replaceAt z.entries i data := by
        simp only [ZipArchive.SetFileData, hidx]
      have hscan' : scanEntries (replaceAt z.entries i data)
          ['a', '/', 'b', '.', 't', 'x', 't'] = some i := by
        rw [scanEntries_names _ z.entries _ (replaceAt_names _ _ _)]
        exact hscan
      have hindex : (z.SetFileData ['a', '/', 'b', '.', 't', 'x', 't'] data).GetIndexFromPath
          ['a', '\\', 'b', '.', 't', 'x', 't'] = some i := by
        simp only [ZipArchive.GetIndexFromPath, hn2, if_neg hne, hentries]
        exact hscan'
      have hget : (z.SetFileData ['a', '/', 'b', '.', 't', 'x', 't'] data).entries[i]?
          = some { e with declared := data.length, bytes := data } := by
        rw [hentries]
        exact replaceAt_getElem _ _ _ _ he
      simp only [ZipArchive.GetFileData, hindex, ZipArchive.GetFileSize, hget]
      by_cases hzero : data.length = 0
      · rw [if_neg (by omega)]
        exact (List.length_eq_zero.mp hzero).symm
      · rw [if_pos ⟨by omega, hsz⟩, if_neg (by simp)]
        exact List.take_length data
  · intro q i hq
    simp only [ZipArchive.GetIndexFromPath] at hq
    by_cases hnp : NormalisePath q = []
    · rw [if_pos hnp] at hq
      exact absurd hq (by simp)
    · rw [if_neg hnp] at hq
      exact scanEntries_some z.entries (NormalisePath q) i hq

theorem C6_path_roundtrip_witness :
    (({ entries := [], writeBuffers := [] } : ZipArchive).SetFileData
        ['a', '/', 'b', '.', 't', 'x', 't'] [9]).GetFileData
        ['a', '\\', 'b', '.', 't', 'x', 't'] = [9] :=
  (C6_path_roundtrip { entries := [], writeBuffers := [] } [9] (by norm_num [SIZEMAX])).1

/-! ### FileAudioSource (PhysFs.cpp, ENABLE_PHYSFS branch)

The audio source streams PCM data out of a RIFF/WAVE container through a
PhysFS file handle.  The handle is modelled as the byte content of the open
file together with the current position and an open/closed flag (the flag
records the effect of the `close` wrapper, i.e. of `PHYSFS_close`). -/

/-- A PhysFS file handle as seen by `FileAudioSource`. -/
structure RwHandle where
  data : List Nat
  pos : Nat
  isOpen : Bool
  deriving DecidableEq

/-- Byte of a file at a given offset; reads past the end yield 0 (the C++
leaves the destination unchanged there and every parse that reads past the
end fails on a later check, so no claim depends on the exact garbage). -/
def byteAt (d : List Nat) (i : Nat) : Nat := d.getD i 0

/-- The `tell` wrapper (`PHYSFS_tell`). -/
def RwHandle.tell (h : RwHandle) : Int := (h.pos : Int)

/-- The seek modes used by the source: `RW_SEEK_SET`/`SEEK_SET` (absolute)
and `RW_SEEK_CUR` (relative). -/
inductive SeekMode
  | rwSeekSet
  | rwSeekCur

/-- The `seek` wrapper: for `RW_SEEK_CUR` the offset is first rebased on the
current position, then `PHYSFS_seek` moves the handle; the wrapper returns
the `PHYSFS_seek` result, which is nonzero (success) in this model. -/
def RwHandle.seek (h : RwHandle) (offset : Nat) (mode : SeekMode) : Int × RwHandle :=
  match mode with
  | .rwSeekSet => (1, { h with pos := offset })
  | .rwSeekCur => (1, { h with pos := h.pos + offset })

/-- The `read` wrapper (`PHYSFS_readBytes`): read up to `bytesToRead` bytes,
clamped at end of file, advancing the position by the count actually read. -/
def RwHandle.read (h : RwHandle) (bytesToRead : Nat) : List Nat × RwHandle :=
  let cnt := min bytesToRead (h.data.length - h.pos)
  ((List.range cnt).map (fun i => byteAt h.data (h.pos + i)), { h with pos := h.pos + cnt })

/-- The `readLE32` wrapper (`PHYSFS_readULE32`): a 32-bit little-endian load. -/
def RwHandle.readLE32 (h : RwHandle) : Nat × RwHandle :=
  (byteAt h.data h.pos + 2 ^ 8 * byteAt h.data (h.pos + 1)
     + 2 ^ 16 * byteAt h.data (h.pos + 2) + 2 ^ 24 * byteAt h.data (h.pos + 3),
   { h with pos := h.pos + 4 })

/-- The `close` wrapper (`PHYSFS_close`). -/
def RwHandle.close (h : RwHandle) : RwHandle := { h with isOpen := false }

/-- Chunk ids used by `LoadWAV` and `FindChunk` (little-endian fourcc). -/
def RIFF : Nat := 0x46464952

def WAVE : Nat := 0x45564157

def FMT : Nat := 0x20746D66

def DATA : Nat := 0x61746164

def FACT : Nat := 0x74636166

def LIST : Nat := 0x5453494c

def BEXT : Nat := 0x74786562

def JUNK : Nat := 0x4B4E554A

/-- Fuelled version of `FileAudioSource::FindChunk`.  The fuel only bounds
the number of loop iterations; `FindChunkF_congr` shows any sufficiently
large fuel gives the same result, and `FindChunk_eq` recovers the exact
loop of the C++ as a recursion equation. -/
def FindChunkF : Nat → RwHandle → Nat → Nat × RwHandle
  | 0, h, _ => (0, h)
  | fuel + 1, h, wantedId =>
    let p := h.readLE32
    let q := p.2.readLE32
    if p.1 = wantedId then (q.1, q.2)
    else if p.1 = FACT ∨ p.1 = LIST ∨ p.1 = BEXT ∨ p.1 = JUNK then
      FindChunkF fuel (q.2.seek q.1 .rwSeekCur).2 wantedId
    else (0, q.2)

/-- `FileAudioSource::FindChunk`: read a chunk id and size; return the size
if the id is the wanted one (position now at the chunk payload); while the id
is one of the known-skippable kinds, seek forward by the size and retry; on
any other id, give up with 0. -/
def FindChunk (h : RwHandle) (wantedId : Nat) : Nat × RwHandle :=
  FindChunkF (h.data.length + 1) h wantedId

/-- The sample encodings used by the loader (`AUDIO_U8`, `AUDIO_S16LSB`,
with the zero-initialised value of `AudioFormat::format` as default). -/
inductive SampleFmt
  | audioNone
  | audioU8
  | audioS16LSB
  deriving DecidableEq

/-- The `AudioFormat` published by the source. -/
structure AudioFormat where
  freq : Nat
  format : SampleFmt
  channels : Nat
  deriving DecidableEq

/-- The fields of the `WaveFormat` record defined in AudioFormat.h. -/
structure WaveFormat where
  encoding : Nat
  channels : Nat
  frequency : Nat
  bitspersample : Nat
  deriving DecidableEq

/-- Modelled from the spec: the fixed-size format record read by step 5 of
the loader.  AudioFormat.h is not part of the sources under review; the spec
names the fields (encoding code, channel count, sample rate, bits-per-sample)
and the standard 16-byte PCM `fmt ` layout places them little-endian at
offsets 0, 2, 4 and 14. -/
def readWaveFormat (h : RwHandle) : WaveFormat × RwHandle :=
  let p := h.read 16
  ({ encoding := p.1.getD 0 0 + 2 ^ 8 * p.1.getD 1 0,
     channels := p.1.getD 2 0 + 2 ^ 8 * p.1.getD 3 0,
     frequency := p.1.getD 4 0 + 2 ^ 8 * p.1.getD 5 0
       + 2 ^ 16 * p.1.getD 6 0 + 2 ^ 24 * p.1.getD 7 0,
     bitspersample := p.1.getD 14 0 + 2 ^ 8 * p.1.getD 15 0 }, p.2)

/-- State of a `FileAudioSource`: the cached format, the owned handle
(`_rw`, null when unloaded), and the lazy data window (`_dataBegin`,
`_dataLength`).  `seekCalls` is ghost instrumentation: it counts the calls
to the `seek` wrapper made by `FileAudioSource::Read`, so that the
no-redundant-seek behaviour is observable in theorems; it does not affect
any data. -/
structure FileAudioSource where
  format : AudioFormat
  rw : Option RwHandle
  dataBegin : Nat
  dataLength : Nat
  seekCalls : Nat
  deriving DecidableEq

/-- `FileAudioSource::Unload`: close `_rw` if set and null it, and reset the
data window.  The second component reports the final state of the handle
that was closed (ghost observation used to reason about teardown). -/
def FileAudioSource.unload (s : FileAudioSource) : FileAudioSource × Option RwHandle :=
  match s.rw with
  | some h => ({ s with rw := none, dataBegin := 0, dataLength := 0 }, some h.close)
  | none => ({ s with dataBegin := 0, dataLength := 0 }, none)

/-- The tail of `LoadWAV` after the format has been accepted: locate the
`data` chunk, failing on a missing or zero-sized chunk, otherwise record the
lazy payload window. -/
def FileAudioSource.loadData (s1 : FileAudioSource) (rw5 : RwHandle) : Bool × FileAudioSource :=
  let d := FindChunk rw5 DATA
  if d.1 = 0 then (false, { s1 with rw := some d.2 })
  else (true, { s1 with rw := some d.2, dataLength := d.1, dataBegin := d.2.pos })

/-- `FileAudioSource::LoadWAV`: reset prior state, then check the `RIFF`
magic, skip the declared size, check the `WAVE` form type, locate `fmt `,
read the format record and seek to the end of the `fmt ` chunk, validate
PCM encoding and bits-per-sample, then locate `data`.  Every failure after
the null check leaves `_rw` set to the (advanced) handle. -/
def FileAudioSource.LoadWAV (s0 : FileAudioSource) (rwIn : Option RwHandle) :
    Bool × FileAudioSource :=
  let s := (s0.unload).1
  match rwIn with
  | none => (false, s)
  | some rw0 =>
    let p1 := rw0.readLE32
    if p1.1 ≠ RIFF then (false, { s with rw := some p1.2 })
    else
      let p2 := p1.2.readLE32
      let p3 := p2.2.readLE32
      if p3.1 ≠ WAVE then (false, { s with rw := some p3.2 })
      else
        let f1 := FindChunk p3.2 FMT
        if f1.1 = 0 then (false, { s with rw := some f1.2 })
        else
          let chunkStart := f1.2.pos
          let wf := readWaveFormat f1.2
          let rw5 := (wf.2.seek (chunkStart + f1.1) .rwSeekSet).2
          if wf.1.encoding ≠ 1 then (false, { s with rw := some rw5 })
          else
            let s1 := { s with format := { s.format with freq := wf.1.frequency } }
            if wf.1.bitspersample = 8 then
              FileAudioSource.loadData
                { s1 with format :=
                    { s1.format with format := SampleFmt.audioU8, channels := wf.1.channels } }
                rw5
            else if wf.1.bitspersample = 16 then
              FileAudioSource.loadData
                { s1 with format :=
                    { s1.format with format := SampleFmt.audioS16LSB, channels := wf.1.channels } }
                rw5
            else (false, { s1 with rw := some rw5 })

/-- `FileAudioSource::Read(dst, offset, len)`: clamp the request against the
data window with 64-bit arithmetic, seek only when the current position is
not already the absolute source offset, then read.  A null `_rw` is never
dereferenced by the claims (they quantify over loaded readers); the model
returns 0 there. -/
def FileAudioSource.Read (s : FileAudioSource) (offset len : Nat) : Nat × FileAudioSource :=
  match s.rw with
  | none => (0, s)
  | some h =>
    let currentPosition : Int := h.tell
    if currentPosition ≠ -1 then
      let bytesToRead := min len (sub64 s.dataLength offset)
      let dataOffset : Int := ((s.dataBegin + offset : Nat) : Int)
      if currentPosition ≠ dataOffset then
        let sres := h.seek (s.dataBegin + offset) .rwSeekSet
        if sres.1 = -1 then (0, { s with rw := some sres.2, seekCalls := s.seekCalls + 1 })
        else
          let r := sres.2.read bytesToRead
          (r.1.length, { s with rw := some r.2, seekCalls := s.seekCalls + 1 })
      else
        let r := h.read bytesToRead
        (r.1.length, { s with rw := some r.2 })
    else (0, s)

/-- A zero-initialised `AudioFormat` (`AudioFormat _format = {}`). -/
def audioFormatZero : AudioFormat :=
  { freq := 0, format := SampleFmt.audioNone, channels := 0 }

/-- A freshly constructed `FileAudioSource`. -/
def fasNew : FileAudioSource :=
  { format := audioFormatZero, rw := none, dataBegin := 0, dataLength := 0, seekCalls := 0 }

/-- `AudioSource::CreateStreamFromWAV(rw)`: construct a source, load the
container, and on failure delete the source (whose destructor runs `Unload`,
closing the stored handle).  The second component reports the final state of
the passed handle. -/
def CreateStreamFromWAV (rwIn : Option RwHandle) :
    Option FileAudioSource × Option RwHandle :=
  let r := fasNew.LoadWAV rwIn
  if r.1 then (some r.2, r.2.rw)
  else (none, (r.2.unload).2)

/-! ### Recursion equation for FindChunk -/

theorem byteAt_ge (d : List Nat) (i : Nat) (h : d.length ≤ i) : byteAt d i = 0 := by
  unfold byteAt
  exact List.getD_eq_default d 0 h

theorem readLE32_eof (h : RwHandle) (hp : h.data.length ≤ h.pos) : h.readLE32.1 = 0 := by
  unfold RwHandle.readLE32
  rw [byteAt_ge _ _ hp, byteAt_ge _ _ (by omega), byteAt_ge _ _ (by omega),
    byteAt_ge _ _ (by omega)]
  norm_num

theorem skippable_pos_lt (h : RwHandle)
    (hskip : h.readLE32.1 = FACT ∨ h.readLE32.1 = LIST ∨ h.readLE32.1 = BEXT
      ∨ h.readLE32.1 = JUNK) :
    h.pos < h.data.length := by
  by_contra hge
  push_neg at hge
  have h0 := readLE32_eof h hge
  rcases hskip with h' | h' | h' | h' <;> rw [h0] at h' <;>
    simp [FACT, LIST, BEXT, JUNK] at h'

theorem FindChunkF_congr (f1 : Nat) : ∀ (f2 : Nat) (h : RwHandle) (w : Nat),
    h.data.length - h.pos < f1 → h.data.length - h.pos < f2 →
    FindChunkF f1 h w = FindChunkF f2 h w := by
  induction f1 with
  | zero => intro f2 h w h1 h2; omega
  | succ f1' ih =>
    intro f2 h w h1 h2
    match f2 with
    | 0 => omega
    | f2' + 1 =>
      simp only [FindChunkF]
      by_cases hw : h.readLE32.1 = w
      · rw [if_pos hw, if_pos hw]
      · rw [if_neg hw, if_neg hw]
        by_cases hskip : h.readLE32.1 = FACT ∨ h.readLE32.1 = LIST ∨ h.readLE32.1 = BEXT
            ∨ h.readLE32.1 = JUNK
        · rw [if_pos hskip, if_pos hskip]
          have hlt := skippable_pos_lt h hskip
          have hred : (h.readLE32.2.readLE32.2.seek h.readLE32.2.readLE32.1 SeekMode.rwSeekCur).2
              = { h with pos := h.pos + 4 + 4 + h.readLE32.2.readLE32.1 } := rfl
          rw [hred]
          exact ih f2' _ w (by simp only []; omega) (by simp only []; omega)
        · rw [if_neg hskip, if_neg hskip]

/-- The loop of `FindChunk` as the C++ writes it: check the header at the
current position, return on a match, skip and retry on a known-skippable id,
give up otherwise. -/
theorem FindChunk_eq (h : RwHandle) (w : Nat) :
    FindChunk h w =
      (let p := h.readLE32
       let q := p.2.readLE32
       if p.1 = w then (q.1, q.2)
       else if p.1 = FACT ∨ p.1 = LIST ∨ p.1 = BEXT ∨ p.1 = JUNK then
         FindChunk (q.2.seek q.1 .rwSeekCur).2 w
       else (0, q.2)) := by
  show FindChunkF (h.data.length + 1) h w = _
  simp only [FindChunkF]
  by_cases hw : h.readLE32.1 = w
  · rw [if_pos hw, if_pos hw]
  · rw [if_neg hw, if_neg hw]
    by_cases hskip : h.readLE32.1 = FACT ∨ h.readLE32.1 = LIST ∨ h.readLE32.1 = BEXT
        ∨ h.readLE32.1 = JUNK
    · rw [if_pos hskip, if_pos hskip]
      have hlt := skippable_pos_lt h hskip
      have hred : (h.readLE32.2.readLE32.2.seek h.readLE32.2.readLE32.1 SeekMode.rwSeekCur).2
          = { h with pos := h.pos + 4 + 4 + h.readLE32.2.readLE32.1 } := rfl
      rw [hred]
      show FindChunkF h.data.length _ w = FindChunkF (h.data.length + 1) _ w
      exact FindChunkF_congr _ _ _ w (by simp only []; omega) (by simp only []; omega)
    · rw [if_neg hskip, if_neg hskip]

/-! ### Shift lemmas: parsing depends only on the bytes from the current
position onwards, so prefixing the file moves every result position by the
prefix length and changes nothing else. -/

theorem readLE32_pos (h : RwHandle) : h.readLE32.2 = ⟨h.data, h.pos + 4, h.isOpen⟩ := rfl

theorem seekCur_red (h : RwHandle) (k : Nat) :
    (h.seek k .rwSeekCur).2 = ⟨h.data, h.pos + k, h.isOpen⟩ := rfl

theorem seekSet_red (h : RwHandle) (k : Nat) :
    (h.seek k .rwSeekSet).2 = ⟨h.data, k, h.isOpen⟩ := rfl

theorem byteAt_append (A B : List Nat) (i : Nat) :
    byteAt (A ++ B) (A.length + i) = byteAt B i := by
  induction A with
  | nil => simp [byteAt]
  | cons a rest ih =>
    show byteAt (a :: (rest ++ B)) (rest.length + 1 + i) = byteAt B i
    have e : rest.length + 1 + i = rest.length + i + 1 := by omega
    rw [e]
    show (a :: (rest ++ B)).getD (rest.length + i + 1) 0 = _
    rw [List.getD_cons_succ]
    exact ih

theorem readLE32_val_shift (A B : List Nat) (p : Nat) (o : Bool) :
    (RwHandle.readLE32 ⟨A ++ B, A.length + p, o⟩).1 = (RwHandle.readLE32 ⟨B, p, o⟩).1 := by
  unfold RwHandle.readLE32
  simp only []
  have e1 : A.length + p + 1 = A.length + (p + 1) := by omega
  have e2 : A.length + p + 2 = A.length + (p + 2) := by omega
  have e3 : A.length + p + 3 = A.length + (p + 3) := by omega
  rw [e1, e2, e3, byteAt_append, byteAt_append, byteAt_append, byteAt_append]

theorem read_shift (A B : List Nat) (p n : Nat) (o : Bool) :
    RwHandle.read ⟨A ++ B, A.length + p, o⟩ n =
      ((RwHandle.read ⟨B, p, o⟩ n).1,
        ⟨A ++ B, A.length + (p + min n (B.length - p)), o⟩) := by
  unfold RwHandle.read
  simp only [List.length_append]
  have hcnt : min n (A.length + B.length - (A.length + p)) = min n (B.length - p) := by omega
  rw [hcnt]
  have hmap : ∀ i ∈ List.range (min n (B.length - p)),
      byteAt (A ++ B) (A.length + p + i) = byteAt B (p + i) := by
    intro i hi
    have e : A.length + p + i = A.length + (p + i) := by omega
    rw [e, byteAt_append]
  rw [List.map_congr_left hmap]
  have e : A.length + p + min n (B.length - p) = A.length + (p + min n (B.length - p)) := by
    omega
  rw [e]

theorem readWaveFormat_shift (A B : List Nat) (p : Nat) (o : Bool) :
    readWaveFormat ⟨A ++ B, A.length + p, o⟩ =
      ((readWaveFormat ⟨B, p, o⟩).1,
        ⟨A ++ B, A.length + (p + min 16 (B.length - p)), o⟩) := by
  unfold readWaveFormat
  rw [read_shift]

theorem FindChunk_shift (A B : List Nat) (w : Nat) (o : Bool) :
    ∀ (m p : Nat), B.length - p < m →
    FindChunk ⟨A ++ B, A.length + p, o⟩ w =
      ((FindChunk ⟨B, p, o⟩ w).1,
        ⟨A ++ B, A.length + (FindChunk ⟨B, p, o⟩ w).2.pos, o⟩) := by
  intro m
  induction m with
  | zero => intro p hmeas; omega
  | succ m' ih =>
    intro p hmeas
    rw [FindChunk_eq ⟨A ++ B, A.length + p, o⟩ w, FindChunk_eq ⟨B, p, o⟩ w]
    simp only [readLE32_pos, seekCur_red]
    have e1 : A.length + p + 4 = A.length + (p + 4) := by omega
    rw [e1]
    have e2 : A.length + (p + 4) + 4 = A.length + (p + 4 + 4) := by omega
    rw [e2]
    rw [readLE32_val_shift A B p o, readLE32_val_shift A B (p + 4) o]
    by_cases hw : (RwHandle.readLE32 ⟨B, p, o⟩).1 = w
    · rw [if_pos hw, if_pos hw]
    · rw [if_neg hw, if_neg hw]
      by_cases hskip : (RwHandle.readLE32 ⟨B, p, o⟩).1 = FACT
          ∨ (RwHandle.readLE32 ⟨B, p, o⟩).1 = LIST
          ∨ (RwHandle.readLE32 ⟨B, p, o⟩).1 = BEXT
          ∨ (RwHandle.readLE32 ⟨B, p, o⟩).1 = JUNK
      · rw [if_pos hskip, if_pos hskip]
        have hplt : p < B.length := skippable_pos_lt ⟨B, p, o⟩ hskip
        have e3 : A.length + (p + 4 + 4) + (RwHandle.readLE32 ⟨B, p + 4, o⟩).1
            = A.length + (p + 4 + 4 + (RwHandle.readLE32 ⟨B, p + 4, o⟩).1) := by omega
        rw [e3]
        exact ih (p + 4 + 4 + (RwHandle.readLE32 ⟨B, p + 4, o⟩).1) (by omega)
      · rw [if_neg hskip, if_neg hskip]

/-! ### Byte-level container builders -/

/-- Little-endian encoding of a 32-bit value. -/
def le32 (n : Nat) : List Nat :=
  [n % 2 ^ 8, n / 2 ^ 8 % 2 ^ 8, n / 2 ^ 16 % 2 ^ 8, n / 2 ^ 24 % 2 ^ 8]

/-- A skippable `JUNK` chunk with the given payload. -/
def junkChunk (payload : List Nat) : List Nat :=
  le32 JUNK ++ (le32 payload.length ++ payload)

theorem readLE32_le32 (n : Nat) (hn : n < 2 ^ 32) (t : List Nat) (o : Bool) :
    (RwHandle.readLE32 ⟨le32 n ++ t, 0, o⟩).1 = n := by
  unfold RwHandle.readLE32 le32 byteAt
  simp only [List.cons_append, List.getD_cons_zero, List.getD_cons_succ, List.nil_append]
  omega

theorem readLE32_at4 (a b : Nat) (hb : b < 2 ^ 32) (t : List Nat) (o : Bool) :
    (RwHandle.readLE32 ⟨le32 a ++ (le32 b ++ t), 4, o⟩).1 = b := by
  have e : (4 : Nat) = (le32 a).length + 0 := rfl
  rw [e, readLE32_val_shift]
  exact readLE32_le32 b hb t o

theorem readLE32_at8 (a b c : Nat) (hc : c < 2 ^ 32) (t : List Nat) (o : Bool) :
    (RwHandle.readLE32 ⟨le32 a ++ (le32 b ++ (le32 c ++ t)), 8, o⟩).1 = c := by
  have e : (8 : Nat) = (le32 a).length + 4 := rfl
  rw [e, readLE32_val_shift]
  exact readLE32_at4 b c hc t o

/-- Reduction of `Unload` on the source state. -/
theorem unload_red (s : FileAudioSource) :
    (s.unload).1 = { s with rw := none, dataBegin := 0, dataLength := 0 } := by
  obtain ⟨f, rw, db, dl, sc⟩ := s
  cases rw <;> rfl

/-- The body scan of `LoadWAV` expressed relative to the subchunk bytes `B`
that follow the 12-byte `RIFF`/size/`WAVE` header: success flag, resulting
format, data length, and data offset within `B`.  This is a proof device;
`LoadWAV_split` proves that `LoadWAV` is characterized by it, so that
containers differing only in their header or in a prefix of `B` can be
compared. -/
def wavScan (B : List Nat) (fmt0 : AudioFormat) : Bool × AudioFormat × Nat × Nat :=
  let f1 := FindChunk ⟨B, 0, true⟩ FMT
  if f1.1 = 0 then (false, fmt0, 0, 0)
  else
    let wf := (readWaveFormat ⟨B, f1.2.pos, true⟩).1
    if wf.encoding ≠ 1 then (false, fmt0, 0, 0)
    else
      let fmt1 := { fmt0 with freq := wf.frequency }
      if wf.bitspersample = 8 then
        let d := FindChunk ⟨B, f1.2.pos + f1.1, true⟩ DATA
        if d.1 = 0 then
          (false, { fmt1 with format := SampleFmt.audioU8, channels := wf.channels }, 0, 0)
        else
          (true, { fmt1 with format := SampleFmt.audioU8, channels := wf.channels }, d.1, d.2.pos)
      else if wf.bitspersample = 16 then
        let d := FindChunk ⟨B, f1.2.pos + f1.1, true⟩ DATA
        if d.1 = 0 then
          (false, { fmt1 with format := SampleFmt.audioS16LSB, channels := wf.channels }, 0, 0)
        else
          (true, { fmt1 with format := SampleFmt.audioS16LSB, channels := wf.channels }, d.1, d.2.pos)
      else (false, fmt1, 0, 0)

/-- `LoadWAV` on a container `RIFF <size> WAVE <subchunks B>` is characterized
by the body scan `wavScan B`: same success flag, same format, same data
length, and (on success) a data offset shifted by the 12-byte header. -/
theorem LoadWAV_split (s0 : FileAudioSource) (z : Nat) (B : List Nat) :
    (s0.LoadWAV (some ⟨le32 RIFF ++ (le32 z ++ (le32 WAVE ++ B)), 0, true⟩)).1
        = (wavScan B s0.format).1 ∧
    (s0.LoadWAV (some ⟨le32 RIFF ++ (le32 z ++ (le32 WAVE ++ B)), 0, true⟩)).2.format
        = (wavScan B s0.format).2.1 ∧
    (s0.LoadWAV (some ⟨le32 RIFF ++ (le32 z ++ (le32 WAVE ++ B)), 0, true⟩)).2.dataLength
        = (wavScan B s0.format).2.2.1 ∧
    ((wavScan B s0.format).1 = true →
      (s0.LoadWAV (some ⟨le32 RIFF ++ (le32 z ++ (le32 WAVE ++ B)), 0, true⟩)).2.dataBegin
        = 12 + (wavScan B s0.format).2.2.2) := by
  have hassoc : le32 RIFF ++ (le32 z ++ (le32 WAVE ++ B))
      = (le32 RIFF ++ (le32 z ++ le32 WAVE)) ++ B := by
    simp [List.append_assoc]
  have hA12 : (le32 RIFF ++ (le32 z ++ le32 WAVE)).length = 12 := by
    simp [le32]
  simp only [FileAudioSource.LoadWAV, unload_red, wavScan]
  rw [readLE32_le32 RIFF (by decide) _ true]
  rw [if_neg (show ¬(RIFF ≠ RIFF) by simp)]
  simp only [readLE32_pos]
  rw [show (0 : Nat) + 4 = 4 from rfl]
  rw [show (4 : Nat) + 4 = 8 from rfl]
  rw [readLE32_at8 RIFF z WAVE (by decide) B true]
  rw [if_neg (show ¬(WAVE ≠ WAVE) by simp)]
  rw [show (8 : Nat) + 4 = 12 from rfl]
  rw [hassoc]
  have hFMT := FindChunk_shift (le32 RIFF ++ (le32 z ++ le32 WAVE)) B FMT true
    (B.length + 1) 0 (by omega)
  rw [hA12] at hFMT
  rw [Nat.add_zero] at hFMT
  rw [hFMT]
  simp only []
  by_cases hf1 : (FindChunk ⟨B, 0, true⟩ FMT).1 = 0
  · rw [if_pos hf1, if_pos hf1]
    exact ⟨rfl, rfl, rfl, by intro hc; simp at hc⟩
  · rw [if_neg hf1, if_neg hf1]
    have hWF := readWaveFormat_shift (le32 RIFF ++ (le32 z ++ le32 WAVE)) B
      (FindChunk ⟨B, 0, true⟩ FMT).2.pos true
    rw [hA12] at hWF
    rw [hWF]
    simp only [seekSet_red]
    by_cases henc : (readWaveFormat ⟨B, (FindChunk ⟨B, 0, true⟩ FMT).2.pos, true⟩).1.encoding = 1
    · rw [if_neg (show ¬((readWaveFormat ⟨B, (FindChunk ⟨B, 0, true⟩ FMT).2.pos, true⟩).1.encoding
          ≠ 1) by simp [henc]),
        if_neg (show ¬((readWaveFormat ⟨B, (FindChunk ⟨B, 0, true⟩ FMT).2.pos, true⟩).1.encoding
          ≠ 1) by simp [henc])]
      have hglue : 12 + (FindChunk ⟨B, 0, true⟩ FMT).2.pos + (FindChunk ⟨B, 0, true⟩ FMT).1
          = 12 + ((FindChunk ⟨B, 0, true⟩ FMT).2.pos + (FindChunk ⟨B, 0, true⟩ FMT).1) := by
        omega
      rw [hglue]
      have hDATA := FindChunk_shift (le32 RIFF ++ (le32 z ++ le32 WAVE)) B DATA true
        (B.length + 1) ((FindChunk ⟨B, 0, true⟩ FMT).2.pos + (FindChunk ⟨B, 0, true⟩ FMT).1)
        (by omega)
      rw [hA12] at hDATA
      by_cases hb8 : (readWaveFormat ⟨B, (FindChunk ⟨B, 0, true⟩ FMT).2.pos, true⟩).1.bitspersample
          = 8
      · rw [if_pos hb8, if_pos hb8]
        simp only [FileAudioSource.loadData]
        rw [hDATA]
        simp only []
        by_cases hd : (FindChunk ⟨B, (FindChunk ⟨B, 0, true⟩ FMT).2.pos
            + (FindChunk ⟨B, 0, true⟩ FMT).1, true⟩ DATA).1 = 0
        · rw [if_pos hd, if_pos hd]
          exact ⟨rfl, rfl, rfl, by intro hc; simp at hc⟩
        · rw [if_neg hd, if_neg hd]
          exact ⟨rfl, rfl, rfl, fun _ => rfl⟩
      · rw [if_neg hb8, if_neg hb8]
        by_cases hb16 : (readWaveFormat ⟨B, (FindChunk ⟨B, 0, true⟩ FMT).2.pos,
            true⟩).1.bitspersample = 16
        · rw [if_pos hb16, if_pos hb16]
          simp only [FileAudioSource.loadData]
          rw [hDATA]
          simp only []
          by_cases hd : (FindChunk ⟨B, (FindChunk ⟨B, 0, true⟩ FMT).2.pos
              + (FindChunk ⟨B, 0, true⟩ FMT).1, true⟩ DATA).1 = 0
          · rw [if_pos hd, if_pos hd]
            exact ⟨rfl, rfl, rfl, by intro hc; simp at hc⟩
          · rw [if_neg hd, if_neg hd]
            exact ⟨rfl, rfl, rfl, fun _ => rfl⟩
        · rw [if_neg hb16, if_neg hb16]
          exact ⟨rfl, rfl, rfl, by intro hc; simp at hc⟩
    · rw [if_pos (show (readWaveFormat ⟨B, (FindChunk ⟨B, 0, true⟩ FMT).2.pos, true⟩).1.encoding
          ≠ 1 from henc),
        if_pos (show (readWaveFormat ⟨B, (FindChunk ⟨B, 0, true⟩ FMT).2.pos, true⟩).1.encoding
          ≠ 1 from henc)]
      exact ⟨rfl, rfl, rfl, by intro hc; simp at hc⟩

/-- If parsing a container body `C` relates to parsing a body `B` by a fixed
position shift (the chunk scan, the format record and the data scan each give
the same values at positions shifted by `d`), the whole body scan gives the
same result with the data offset shifted by `d`.  The hypotheses keep `C`
opaque; the junk-chunk instance discharges them with the shift lemmas. -/
theorem wavScan_shifted (C B : List Nat) (d : Nat) (fmt0 : AudioFormat)
    (h1 : FindChunk ⟨C, 0, true⟩ FMT
      = ((FindChunk ⟨B, 0, true⟩ FMT).1,
         ⟨C, d + (FindChunk ⟨B, 0, true⟩ FMT).2.pos, true⟩))
    (h2 : (readWaveFormat ⟨C, d + (FindChunk ⟨B, 0, true⟩ FMT).2.pos, true⟩).1
      = (readWaveFormat ⟨B, (FindChunk ⟨B, 0, true⟩ FMT).2.pos, true⟩).1)
    (h3 : FindChunk ⟨C, d + ((FindChunk ⟨B, 0, true⟩ FMT).2.pos
            + (FindChunk ⟨B, 0, true⟩ FMT).1), true⟩ DATA
      = ((FindChunk ⟨B, (FindChunk ⟨B, 0, true⟩ FMT).2.pos
            + (FindChunk ⟨B, 0, true⟩ FMT).1, true⟩ DATA).1,
         ⟨C, d + (FindChunk ⟨B, (FindChunk ⟨B, 0, true⟩ FMT).2.pos
            + (FindChunk ⟨B, 0, true⟩ FMT).1, true⟩ DATA).2.pos, true⟩)) :
    (wavScan C fmt0).1 = (wavScan B fmt0).1 ∧
    (wavScan C fmt0).2.1 = (wavScan B fmt0).2.1 ∧
    (wavScan C fmt0).2.2.1 = (wavScan B fmt0).2.2.1 ∧
    ((wavScan B fmt0).1 = true →
      (wavScan C fmt0).2.2.2 = d + (wavScan B fmt0).2.2.2) := by
  simp only [wavScan]
  rw [h1]
  simp only []
  by_cases hf1 : (FindChunk ⟨B, 0, true⟩ FMT).1 = 0
  · rw [if_pos hf1, if_pos hf1]
    exact ⟨rfl, rfl, rfl, by intro hc; simp at hc⟩
  · rw [if_neg hf1, if_neg hf1]
    rw [h2]
    by_cases henc : (readWaveFormat ⟨B, (FindChunk ⟨B, 0, true⟩ FMT).2.pos, true⟩).1.encoding = 1
    · rw [if_neg (show ¬((readWaveFormat ⟨B, (FindChunk ⟨B, 0, true⟩ FMT).2.pos, true⟩).1.encoding
          ≠ 1) by simp [henc]),
        if_neg (show ¬((readWaveFormat ⟨B, (FindChunk ⟨B, 0, true⟩ FMT).2.pos, true⟩).1.encoding
          ≠ 1) by simp [henc])]
      have hglue : d + (FindChunk ⟨B, 0, true⟩ FMT).2.pos + (FindChunk ⟨B, 0, true⟩ FMT).1
          = d + ((FindChunk ⟨B, 0, true⟩ FMT).2.pos + (FindChunk ⟨B, 0, true⟩ FMT).1) := by
        omega
      rw [hglue]
      by_cases hb8 : (readWaveFormat ⟨B, (FindChunk ⟨B, 0, true⟩ FMT).2.pos, true⟩).1.bitspersample
          = 8
      · rw [if_pos hb8, if_pos hb8]
        rw [h3]
        simp only []
        by_cases hd : (FindChunk ⟨B, (FindChunk ⟨B, 0, true⟩ FMT).2.pos
            + (FindChunk ⟨B, 0, true⟩ FMT).1, true⟩ DATA).1 = 0
        · rw [if_pos hd, if_pos hd]
          exact ⟨rfl, rfl, rfl, by intro hc; simp at hc⟩
        · rw [if_neg hd, if_neg hd]
          exact ⟨rfl, rfl, rfl, fun _ => rfl⟩
      · rw [if_neg hb8, if_neg hb8]
        by_cases hb16 : (readWaveFormat ⟨B, (FindChunk ⟨B, 0, true⟩ FMT).2.pos,
            true⟩).1.bitspersample = 16
        · rw [if_pos hb16, if_pos hb16]
          rw [h3]
          simp only []
          by_cases hd : (FindChunk ⟨B, (FindChunk ⟨B, 0, true⟩ FMT).2.pos
              + (FindChunk ⟨B, 0, true⟩ FMT).1, true⟩ DATA).1 = 0
          · rw [if_pos hd, if_pos hd]
            exact ⟨rfl, rfl, rfl, by intro hc; simp at hc⟩
          · rw [if_neg hd, if_neg hd]
            exact ⟨rfl, rfl, rfl, fun _ => rfl⟩
        · rw [if_neg hb16, if_neg hb16]
          exact ⟨rfl, rfl, rfl, by intro hc; simp at hc⟩
    · rw [if_pos (show (readWaveFormat ⟨B, (FindChunk ⟨B, 0, true⟩ FMT).2.pos, true⟩).1.encoding
          ≠ 1 from henc),
        if_pos (show (readWaveFormat ⟨B, (FindChunk ⟨B, 0, true⟩ FMT).2.pos, true⟩).1.encoding
          ≠ 1 from henc)]
      exact ⟨rfl, rfl, rfl, by intro hc; simp at hc⟩

/-- Prepending a `JUNK` chunk to the subchunk sequence does not change the
result of the body scan except for shifting the data offset by the size of
the junk chunk: the scan skips it transparently. -/
theorem wavScan_junk (jp B : List Nat) (hjp : jp.length < 2 ^ 32) (fmt0 : AudioFormat) :
    (wavScan (junkChunk jp ++ B) fmt0).1 = (wavScan B fmt0).1 ∧
    (wavScan (junkChunk jp ++ B) fmt0).2.1 = (wavScan B fmt0).2.1 ∧
    (wavScan (junkChunk jp ++ B) fmt0).2.2.1 = (wavScan B fmt0).2.2.1 ∧
    ((wavScan B fmt0).1 = true →
      (wavScan (junkChunk jp ++ B) fmt0).2.2.2
        = (8 + jp.length) + (wavScan B fmt0).2.2.2) := by
  have hassoc : junkChunk jp ++ B = le32 JUNK ++ (le32 jp.length ++ (jp ++ B)) := by
    simp [junkChunk, List.append_assoc]
  have hassoc2 : le32 JUNK ++ (le32 jp.length ++ (jp ++ B))
      = (le32 JUNK ++ (le32 jp.length ++ jp)) ++ B := by
    simp [List.append_assoc]
  have hflat : junkChunk jp ++ B = (le32 JUNK ++ (le32 jp.length ++ jp)) ++ B :=
    hassoc.trans hassoc2
  have hAlen : (le32 JUNK ++ (le32 jp.length ++ jp)).length = 8 + jp.length := by
    simp [le32]
    omega
  apply wavScan_shifted
  · -- the chunk scan reads the junk header, skips it, and resumes on B
    rw [hflat]
    conv_lhs => rw [← hassoc2]
    rw [FindChunk_eq]
    simp only [readLE32_pos, seekCur_red]
    rw [readLE32_le32 JUNK (by decide) _ true]
    rw [show (0 : Nat) + 4 = 4 from rfl]
    rw [readLE32_at4 JUNK jp.length hjp (jp ++ B) true]
    rw [if_neg (show ¬(JUNK = FMT) by decide)]
    rw [if_pos (show JUNK = FACT ∨ JUNK = LIST ∨ JUNK = BEXT ∨ JUNK = JUNK by decide)]
    rw [show (4 : Nat) + 4 = 8 from rfl]
    rw [hassoc2]
    have hJ := FindChunk_shift (le32 JUNK ++ (le32 jp.length ++ jp)) B FMT true
      (B.length + 1) 0 (by omega)
    rw [hAlen, Nat.add_zero] at hJ
    rw [hJ]
  · -- the format record is read at the shifted position
    rw [hflat]
    have hWF := readWaveFormat_shift (le32 JUNK ++ (le32 jp.length ++ jp)) B
      (FindChunk ⟨B, 0, true⟩ FMT).2.pos true
    rw [hAlen] at hWF
    rw [hWF]
  · -- the data scan runs at the shifted position
    rw [hflat]
    have hDATA := FindChunk_shift (le32 JUNK ++ (le32 jp.length ++ jp)) B DATA true
      (B.length + 1) ((FindChunk ⟨B, 0, true⟩ FMT).2.pos + (FindChunk ⟨B, 0, true⟩ FMT).1)
      (by omega)
    rw [hAlen] at hDATA
    rw [hDATA]

theorem byteAt_of_append (A B : List Nat) (k i : Nat) (hk : A.length = k) :
    byteAt (A ++ B) (k + i) = byteAt B i := by
  subst hk
  exact byteAt_append A B i

/-- A RIFF/WAVE container: the `RIFF` magic, a declared total size, the
`WAVE` form type, and the subchunk bytes. -/
def riffContainer (sz : Nat) (B : List Nat) : List Nat :=
  le32 RIFF ++ (le32 sz ++ (le32 WAVE ++ B))

/-- Claim C2: the chunk scan reads a 4-byte id and 4-byte size and (a)
returns the size with the position at the payload start when the id is the
wanted one, (b) skips forward by the size and repeats when the id is `fact`,
`LIST`, `bext` or `JUNK`, and (c) fails the lookup on any other id.  Hence a
container with chunk order RIFF/WAVE, JUNK, fmt , data parses identically to
one with order RIFF/WAVE, fmt , data: same success, same format, same data
length, and the same data-window bytes. -/
theorem C2_chunk_scan :
    (∀ (h : RwHandle) (w : Nat),
      (h.readLE32.1 = w →
        FindChunk h w = (h.readLE32.2.readLE32.1, h.readLE32.2.readLE32.2) ∧
        h.readLE32.2.readLE32.2.pos = h.pos + 8) ∧
      (h.readLE32.1 ≠ w →
        (h.readLE32.1 = FACT ∨ h.readLE32.1 = LIST ∨ h.readLE32.1 = BEXT
          ∨ h.readLE32.1 = JUNK) →
        FindChunk h w
          = FindChunk ((h.readLE32.2.readLE32.2.seek h.readLE32.2.readLE32.1
              SeekMode.rwSeekCur).2) w) ∧
      (h.readLE32.1 ≠ w →
        ¬(h.readLE32.1 = FACT ∨ h.readLE32.1 = LIST ∨ h.readLE32.1 = BEXT
          ∨ h.readLE32.1 = JUNK) →
        FindChunk h w = (0, h.readLE32.2.readLE32.2))) ∧
    (∀ (sz sz' : Nat) (jp rest : List Nat), jp.length < 2 ^ 32 →
      (let r1 := fasNew.LoadWAV (some ⟨riffContainer sz rest, 0, true⟩)
       let r2 := fasNew.LoadWAV (some ⟨riffContainer sz' (junkChunk jp ++ rest), 0, true⟩)
       r1.1 = r2.1 ∧
       (r1.1 = true →
         r1.2.format = r2.2.format ∧ r1.2.dataLength = r2.2.dataLength ∧
         ∀ i : Nat, byteAt (riffContainer sz' (junkChunk jp ++ rest)) (r2.2.dataBegin + i)
           = byteAt (riffContainer sz rest) (r1.2.dataBegin + i)))) := by
  constructor
  · intro h w
    refine ⟨?_, ?_, ?_⟩
    · intro hw
      constructor
      · rw [FindChunk_eq h w]
        simp only []
        rw [if_pos hw]
      · simp only [readLE32_pos]
    · intro hw hskip
      rw [FindChunk_eq h w]
      simp only []
      rw [if_neg hw, if_pos hskip]
    · intro hw hskip
      rw [FindChunk_eq h w]
      simp only []
      rw [if_neg hw, if_neg hskip]
  · intro sz sz' jp rest hjp
    simp only [riffContainer]
    obtain ⟨s1ok, s1fmt, s1len, s1beg⟩ := LoadWAV_split fasNew sz rest
    obtain ⟨s2ok, s2fmt, s2len, s2beg⟩ := LoadWAV_split fasNew sz' (junkChunk jp ++ rest)
    obtain ⟨sjok, sjfmt, sjlen, sjbeg⟩ := wavScan_junk jp rest hjp fasNew.format
    refine ⟨?_, ?_⟩
    · rw [s1ok, s2ok, sjok]
    · intro hok
      have hokB : (wavScan rest fasNew.format).1 = true := by
        rw [← s1ok]
        exact hok
      have hokJ : (wavScan (junkChunk jp ++ rest) fasNew.format).1 = true := by
        rw [sjok]
        exact hokB
      refine ⟨?_, ?_, ?_⟩
      · rw [s1fmt, s2fmt, sjfmt]
      · rw [s1len, s2len, sjlen]
      · intro i
        rw [s1beg hokB, s2beg hokJ, sjbeg hokB]
        have hc1 : le32 RIFF ++ (le32 sz ++ (le32 WAVE ++ rest))
            = (le32 RIFF ++ (le32 sz ++ le32 WAVE)) ++ rest := by
          simp [List.append_assoc]
        have hc2 : le32 RIFF ++ (le32 sz' ++ (le32 WAVE ++ (junkChunk jp ++ rest)))
            = (le32 RIFF ++ (le32 sz' ++ le32 WAVE)) ++ (junkChunk jp ++ rest) := by
          simp [List.append_assoc]
        rw [hc1, hc2]
        have e1 : 12 + (wavScan rest fasNew.format).2.2.2 + i
            = 12 + ((wavScan rest fasNew.format).2.2.2 + i) := by omega
        have e2 : 12 + (8 + jp.length + (wavScan rest fasNew.format).2.2.2) + i
            = 12 + (8 + jp.length + ((wavScan rest fasNew.format).2.2.2 + i)) := by omega
        rw [e1, e2]
        rw [byteAt_of_append _ _ 12 _ (by simp [le32]),
          byteAt_of_append _ _ 12 _ (by simp [le32])]
        rw [byteAt_of_append (junkChunk jp) rest (8 + jp.length) _
          (by simp [junkChunk, le32]; omega)]

/-- The canonical subchunk bytes used by concrete containers below: a 16-byte
PCM `fmt ` chunk (mono, 8000 Hz, 8 bits per sample) followed by a 3-byte
`data` chunk. -/
def wavRest : List Nat :=
  le32 FMT ++ (le32 16 ++ ([1, 0, 1, 0, 64, 31, 0, 0, 0, 0, 0, 0, 1, 0, 8, 0]
    ++ (le32 DATA ++ (le32 3 ++ [5, 6, 7]))))

theorem C2_chunk_scan_witness :
    (let r1 := fasNew.LoadWAV (some ⟨riffContainer 39 wavRest, 0, true⟩)
     let r2 := fasNew.LoadWAV (some ⟨riffContainer 48 (junkChunk [0] ++ wavRest), 0, true⟩)
     r1.1 = r2.1 ∧
     (r1.1 = true →
       r1.2.format = r2.2.format ∧ r1.2.dataLength = r2.2.dataLength ∧
       ∀ i : Nat, byteAt (riffContainer 48 (junkChunk [0] ++ wavRest)) (r2.2.dataBegin + i)
         = byteAt (riffContainer 39 wavRest) (r1.2.dataBegin + i))) :=
  C2_chunk_scan.2 39 48 [0] wavRest (by decide)

/-! ### Claims C5, C8, C10 on the audio source -/

theorem read_result_len (h : RwHandle) (n : Nat) :
    (h.read n).1.length = min n (h.data.length - h.pos) := by
  simp [RwHandle.read]

theorem read_result_pos (h : RwHandle) (n : Nat) :
    (h.read n).2.pos = h.pos + min n (h.data.length - h.pos) := rfl

/-- Claim C5 (amended): for a loaded reader and a request window starting
inside the data chunk, `Read` clamps the length to `dataLength - offset`
(in particular it returns exactly `dataLength - offset` bytes when
`offset + len` overshoots), reads at the absolute position
`dataBegin + offset`, and calls the seek primitive only when the handle is
not already positioned there. -/
theorem C5_read_clamps (s : FileAudioSource) (h : RwHandle) (offset len : Nat)
    (hrw : s.rw = some h)
    (hwf : s.dataBegin + s.dataLength ≤ h.data.length)
    (hdl : s.dataLength < 2 ^ 64)
    (hoff : offset ≤ s.dataLength) :
    (s.Read offset len).1 = min len (s.dataLength - offset) ∧
    (s.dataLength < offset + len → (s.Read offset len).1 = s.dataLength - offset) ∧
    (∃ h2, (s.Read offset len).2.rw = some h2
      ∧ h2.pos = s.dataBegin + offset + (s.Read offset len).1) ∧
    (h.pos = s.dataBegin + offset → (s.Read offset len).2.seekCalls = s.seekCalls) ∧
    (h.pos ≠ s.dataBegin + offset → (s.Read offset len).2.seekCalls = s.seekCalls + 1) := by
  by_cases hpos : h.pos = s.dataBegin + offset
  · have hv : s.Read offset len
        = (min len (s.dataLength - offset),
           { s with rw := some (h.read (min len (s.dataLength - offset))).2 }) := by
      unfold FileAudioSource.Read
      rw [hrw]
      simp only [RwHandle.tell]
      rw [if_pos (show (h.pos : Int) ≠ -1 by omega)]
      rw [sub64_eq _ _ hoff hdl]
      rw [if_neg (show ¬((h.pos : Int) ≠ ((s.dataBegin + offset : Nat) : Int)) by
        simp [hpos])]
      rw [read_result_len]
      congr 1
      omega
    rw [hv]
    refine ⟨rfl, ?_, ?_, ?_, ?_⟩
    · intro hlt
      show min len (s.dataLength - offset) = s.dataLength - offset
      omega
    · refine ⟨(h.read (min len (s.dataLength - offset))).2, rfl, ?_⟩
      show (h.read (min len (s.dataLength - offset))).2.pos
        = s.dataBegin + offset + min len (s.dataLength - offset)
      rw [read_result_pos]
      omega
    · intro _
      rfl
    · intro hne
      exact absurd hpos hne
  · have hv : s.Read offset len
        = (min len (s.dataLength - offset),
           { s with rw := some (({ h with pos := s.dataBegin + offset } : RwHandle).read
               (min len (s.dataLength - offset))).2, seekCalls := s.seekCalls + 1 }) := by
      unfold FileAudioSource.Read
      rw [hrw]
      simp only [RwHandle.tell]
      rw [if_pos (show (h.pos : Int) ≠ -1 by omega)]
      rw [sub64_eq _ _ hoff hdl]
      rw [if_pos (show (h.pos : Int) ≠ ((s.dataBegin + offset : Nat) : Int) by
        intro hcast
        exact hpos (by exact_mod_cast hcast))]
      simp only [RwHandle.seek]
      rw [if_neg (show ¬((1 : Int) = -1) by decide)]
      rw [read_result_len]
      congr 1
      simp only []
      omega
    rw [hv]
    refine ⟨rfl, ?_, ?_, ?_, ?_⟩
    · intro hlt
      show min len (s.dataLength - offset) = s.dataLength - offset
      omega
    · refine ⟨(({ h with pos := s.dataBegin + offset } : RwHandle).read
        (min len (s.dataLength - offset))).2, rfl, ?_⟩
      show (({ h with pos := s.dataBegin + offset } : RwHandle).read
        (min len (s.dataLength - offset))).2.pos
        = s.dataBegin + offset + min len (s.dataLength - offset)
      rw [read_result_pos]
      simp only []
      omega
    · intro heq
      exact absurd heq hpos
    · intro _
      rfl

theorem C5_read_clamps_witness :
    (let s : FileAudioSource :=
      { format := audioFormatZero, rw := some ⟨[1, 2, 3, 4, 5], 2, true⟩
        dataBegin := 1, dataLength := 3, seekCalls := 0 }
     (s.Read 1 5).1 = min 5 (3 - 1) ∧
     (3 < 1 + 5 → (s.Read 1 5).1 = 3 - 1) ∧
     (∃ h2, (s.Read 1 5).2.rw = some h2 ∧ h2.pos = 1 + 1 + (s.Read 1 5).1) ∧
     (2 = 1 + 1 → (s.Read 1 5).2.seekCalls = 0) ∧
     (2 ≠ 1 + 1 → (s.Read 1 5).2.seekCalls = 0 + 1)) :=
  C5_read_clamps
    { format := audioFormatZero, rw := some ⟨[1, 2, 3, 4, 5], 2, true⟩
      dataBegin := 1, dataLength := 3, seekCalls := 0 }
    ⟨[1, 2, 3, 4, 5], 2, true⟩ 1 5 rfl (by decide) (by decide) (by decide)

/-- The container used by the C5 counterexample: a loadable WAV whose data
chunk holds 3 bytes, with 5 trailing bytes after the data chunk. -/
def wavC5 : List Nat := riffContainer 39 (wavRest ++ [9, 9, 9, 9, 9])

/-- Claim C5 counterexample: on a loaded reader with `dataLength = 3`,
`Read(dst, 4, 1)` returns 1 byte (read from past the data window, after the
unsigned subtraction `dataLength - offset` wraps), not the clamped
`dataLength - offset` the claim requires for every `(offset, len)`. -/
theorem C5_read_cex :
    (let r0 := fasNew.LoadWAV (some ⟨wavC5, 0, true⟩)
     r0.1 = true ∧ r0.2.dataLength = 3 ∧
     (r0.2.Read 4 1).1 = 1 ∧ (r0.2.Read 4 1).1 ≠ min 1 (r0.2.dataLength - 4)) := by
  refine ⟨by decide, by decide, by decide, by decide⟩

/-- Claim C8: once the `fmt ` chunk has been located and the format record
read, the load fails for any non-PCM encoding; under PCM encoding,
bits-per-sample 8 maps to unsigned 8-bit, 16 maps to signed 16-bit
little-endian (load then succeeds exactly when a non-empty `data` chunk is
found), and any other bits-per-sample value makes the load fail. -/
theorem C8_format_validation (s0 : FileAudioSource) (rw0 rw1 rw2 rw3 rw4 rw5 : RwHandle)
    (sz fmtSize : Nat) (wf : WaveFormat)
    (h1 : rw0.readLE32 = (RIFF, rw1))
    (h2 : rw1.readLE32 = (sz, rw2))
    (h3 : rw2.readLE32 = (WAVE, rw3))
    (h4 : FindChunk rw3 FMT = (fmtSize, rw4))
    (h5 : fmtSize ≠ 0)
    (h6 : readWaveFormat rw4 = (wf, rw5)) :
    (wf.encoding ≠ 1 → (s0.LoadWAV (some rw0)).1 = false) ∧
    (wf.encoding = 1 → wf.bitspersample ≠ 8 → wf.bitspersample ≠ 16 →
      (s0.LoadWAV (some rw0)).1 = false) ∧
    (wf.encoding = 1 → wf.bitspersample = 8 →
      (s0.LoadWAV (some rw0)).2.format.format = SampleFmt.audioU8 ∧
      ((s0.LoadWAV (some rw0)).1 = true ↔
        (FindChunk ((rw5.seek (rw4.pos + fmtSize) .rwSeekSet).2) DATA).1 ≠ 0)) ∧
    (wf.encoding = 1 → wf.bitspersample = 16 →
      (s0.LoadWAV (some rw0)).2.format.format = SampleFmt.audioS16LSB ∧
      ((s0.LoadWAV (some rw0)).1 = true ↔
        (FindChunk ((rw5.seek (rw4.pos + fmtSize) .rwSeekSet).2) DATA).1 ≠ 0)) := by
  simp only [FileAudioSource.LoadWAV]
  rw [h1]
  simp only []
  rw [if_neg (show ¬(RIFF ≠ RIFF) by simp)]
  rw [h2]
  simp only []
  rw [h3]
  simp only []
  rw [if_neg (show ¬(WAVE ≠ WAVE) by simp)]
  rw [h4]
  simp only []
  rw [if_neg (show ¬(fmtSize = 0) from h5)]
  rw [h6]
  simp only []
  refine ⟨?_, ?_, ?_, ?_⟩
  · intro henc
    rw [if_pos henc]
  · intro henc hb8 hb16
    rw [if_neg (show ¬(wf.encoding ≠ 1) by simp [henc]), if_neg hb8, if_neg hb16]
  · intro henc hb8
    rw [if_neg (show ¬(wf.encoding ≠ 1) by simp [henc]), if_pos hb8]
    simp only [FileAudioSource.loadData]
    by_cases hd : (FindChunk ((rw5.seek (rw4.pos + fmtSize) SeekMode.rwSeekSet).2) DATA).1 = 0
    · rw [if_pos hd]
      exact ⟨rfl, by simp [hd]⟩
    · rw [if_neg hd]
      exact ⟨rfl, by simp [hd]⟩
  · intro henc hb16
    rw [if_neg (show ¬(wf.encoding ≠ 1) by simp [henc]), if_neg ?hne, if_pos hb16]
    case hne =>
      rw [hb16]
      decide
    simp only [FileAudioSource.loadData]
    by_cases hd : (FindChunk ((rw5.seek (rw4.pos + fmtSize) SeekMode.rwSeekSet).2) DATA).1 = 0
    · rw [if_pos hd]
      exact ⟨rfl, by simp [hd]⟩
    · rw [if_neg hd]
      exact ⟨rfl, by simp [hd]⟩

theorem C8_format_validation_witness :
    (fasNew.LoadWAV (some ⟨wavC5, 0, true⟩)).2.format.format = SampleFmt.audioU8 ∧
    ((fasNew.LoadWAV (some ⟨wavC5, 0, true⟩)).1 = true ↔
      (FindChunk (((⟨wavC5, 36, true⟩ : RwHandle).seek (20 + 16) .rwSeekSet).2) DATA).1 ≠ 0) :=
  (C8_format_validation fasNew ⟨wavC5, 0, true⟩ ⟨wavC5, 4, true⟩ ⟨wavC5, 8, true⟩
    ⟨wavC5, 12, true⟩ ⟨wavC5, 20, true⟩ ⟨wavC5, 36, true⟩ 39 16 ⟨1, 1, 8000, 8⟩
    (by decide) (by decide) (by decide) (by decide) (by decide) (by decide)).2.2.1
    rfl rfl

/-- Every run of `LoadWAV` on a non-null handle leaves `_rw` set: the handle
is stored before parsing begins and no failure path clears it. -/
theorem LoadWAV_keeps_rw (s0 : FileAudioSource) (h0 : RwHandle) :
    ∃ h', ((s0.LoadWAV (some h0)).2).rw = some h' := by
  simp only [FileAudioSource.LoadWAV, FileAudioSource.loadData]
  repeat' split
  all_goals exact ⟨_, rfl⟩

/-- Claim C10: when WAV parsing fails (wrong magic, missing chunk,
unsupported format, or a null handle), `CreateStreamFromWAV` returns no
reader, and a non-null handle has been closed by the failed loader's
teardown. -/
theorem C10_create_fails_closed (rwIn : Option RwHandle)
    (hfail : (fasNew.LoadWAV rwIn).1 = false) :
    (CreateStreamFromWAV rwIn).1 = none ∧
    (∀ h0, rwIn = some h0 →
      ∃ h2, (CreateStreamFromWAV rwIn).2 = some h2 ∧ h2.isOpen = false) := by
  simp only [CreateStreamFromWAV]
  rw [hfail]
  simp only [Bool.false_eq_true, if_false]
  refine ⟨trivial, ?_⟩
  intro h0 hin
  subst hin
  obtain ⟨h', hh'⟩ := LoadWAV_keeps_rw fasNew h0
  refine ⟨h'.close, ?_, rfl⟩
  show ((fasNew.LoadWAV (some h0)).2.unload).2 = some h'.close
  unfold FileAudioSource.unload
  rw [hh']

theorem C10_create_fails_closed_witness :
    (CreateStreamFromWAV (some ⟨[], 0, true⟩)).1 = none ∧
    (∀ h0, (some (⟨[], 0, true⟩ : RwHandle)) = some h0 →
      ∃ h2, (CreateStreamFromWAV (some ⟨[], 0, true⟩)).2 = some h2 ∧ h2.isOpen = false) :=
  C10_create_fails_closed (some ⟨[], 0, true⟩) (by decide)

end OpenRCT2
